import Mathlib

/-!
Verification development for the gitsync sync engine (squash-gitsync-sync).

The definitions below are a shallow embedding of the TypeScript source
(`Sync` class): the string helpers `split`, `explode` and the JS primitives
they rely on, the identity oracle `getTargetHash`, the candidate filter
`filterEmptyLogs`, the `isContains` / `isHistorical` computations, the tag
filter pipeline, the pathspec helper `withPaths`, and a state machine for
`applyPatch` / `syncToConflictBranch`.

Modelling conventions:
- Multi-line output of a git query is modelled as a `List String` of lines
  (the driver trims output; an empty output is `[]`, and no line contains a
  newline). Joining with newlines at the boundary is therefore represented
  by the list itself.
- JS objects used as ordered string maps are modelled as association lists
  `List (String × v)` in insertion order.
- External collaborators (git queries, the micromatch glob matcher) are
  environment parameters: functions supplied to the embedded operations.
-/

namespace GitSync

/-! ## JS string primitives -/

/-- Fuel-driven worker for JS `String.prototype.split` over character lists:
scan left to right, cut at each occurrence of the (non-empty) delimiter.
The fuel is the length of the scanned list, so the base arm is unreachable. -/
def splitSeqF (d : List Char) : Nat → List Char → List (List Char)
  | 0, l => [l]
  | fuel + 1, l =>
    match l with
    | [] => [[]]
    | c :: cs =>
      if d ≠ [] ∧ d.isPrefixOf (c :: cs) then
        [] :: splitSeqF d fuel ((c :: cs).drop d.length)
      else
        match splitSeqF d fuel cs with
        | [] => [[c]]
        | r :: rs => (c :: r) :: rs

/-- JS `s.split(d)` for a non-empty delimiter `d`, over character lists. -/
def splitSeq (d l : List Char) : List (List Char) := splitSeqF d l.length l

/-- JS `Array.prototype.join` over character lists. -/
def joinWith (d : List Char) : List (List Char) → List Char
  | [] => []
  | [x] => x
  | x :: y :: rest => x ++ d ++ joinWith d (y :: rest)

/-- JS `s.split(d)` at the `String` level. -/
def jsSplit (s d : String) : List String := (splitSeq d.data s.data).map String.mk

/-- JS `parts.join(d)` at the `String` level. -/
def joinStrings (d : String) (l : List String) : String :=
  String.mk (joinWith d.data (l.map String.data))

/-- Worker for the source's `split` helper: find the first occurrence of the
delimiter, mirroring `String.prototype.indexOf`. -/
def splitFirstGo (d : List Char) (acc : List Char) : List Char → Option (List Char × List Char)
  | [] => none
  | c :: cs =>
    if d ≠ [] ∧ d.isPrefixOf (c :: cs) then some (acc, (c :: cs).drop d.length)
    else splitFirstGo d (acc ++ [c]) cs

/-- The source's `split(string, delimiter)` helper: cut at the first
occurrence of the delimiter; when it does not occur, return `(string, "")`. -/
def split (s delimiter : String) : String × String :=
  match splitFirstGo delimiter.data [] s.data with
  | none => (s, "")
  | some (a, b) => (String.mk a, String.mk b)

/-- The source's `explode(delimiter, string, limit)` helper (a PHP-explode
port): full JS split, then apply the optional signed limit. -/
def explode (delimiter s : String) (limit : Option Int) : List String :=
  let parts := jsSplit s delimiter
  match limit with
  | none => parts
  | some l0 =>
    let l := if l0 = 0 then 1 else l0
    if 0 < l then
      if (parts.length : Int) ≤ l then parts
      else parts.take (l.toNat - 1) ++ [joinStrings delimiter (parts.drop (l.toNat - 1))]
    else
      if (parts.length : Int) ≤ -l then []
      else parts.take (parts.length - (-l).toNat)

/-- JS negative-tolerant array indexing (`values[i]` with `i` possibly `-1`,
where an out-of-range access yields `undefined`, modelled as `none`). -/
def jsIndex (l : List String) (i : Int) : Option String :=
  if 0 ≤ i then l.get? i.toNat else none

/-! ## JS objects as ordered association lists -/

/-- JS `obj[key]` on an object modelled as an association list. -/
def objGet {v : Type} (o : List (String × v)) (k : String) : Option v :=
  (o.find? (fun p => p.1 == k)).map Prod.snd

/-- JS `obj[key] = value`: replace in place when the key exists, otherwise
append (JS objects keep the first insertion position of a key). -/
def objSet {v : Type} (o : List (String × v)) (k : String) (x : v) : List (String × v) :=
  if (objGet o k).isSome then o.map (fun p => if p.1 == k then (k, x) else p)
  else o ++ [(k, x)]

/-- The identity map `targetHashes` (source hash → target hash). -/
abbrev Cache := List (String × String)

/-- Decidable equality for `Except`, used to evaluate the embedded fallible
operations on concrete inputs. -/
instance {ε α : Type} [DecidableEq ε] [DecidableEq α] : DecidableEq (Except ε α) :=
  fun a b =>
    match a, b with
    | .error e₁, .error e₂ =>
      if h : e₁ = e₂ then .isTrue (by rw [h]) else .isFalse (fun hc => h (by injection hc))
    | .ok x, .ok y =>
      if h : x = y then .isTrue (by rw [h]) else .isFalse (fun hc => h (by injection hc))
    | .error _, .ok _ => .isFalse (fun hc => by injection hc)
    | .ok _, .error _ => .isFalse (fun hc => by injection hc)

/-! ## The squash-marker parser (`parseSquashMessage`) -/

/-- The literal part of the squash-marker regex
`chore\(sync\): squash commits from (.+?) to (.+?)$`. -/
def squashMarker : List Char := "chore(sync): squash commits from ".data

/-- One match attempt of the regex's lazy groups at a fixed start position:
group 1 (`acc`) grows one character at a time and never across a newline; at
each point the literal " to " followed by a non-empty newline-free tail
(group 2, forced to the end of the input by `$`) is tried. -/
def squashSplit (acc : List Char) : List Char → Option (List Char × List Char)
  | [] => none
  | c :: cs =>
    if acc ≠ [] ∧ c = ' ' ∧ ['t', 'o', ' '].isPrefixOf cs ∧ cs.drop 3 ≠ [] ∧ '\n' ∉ cs.drop 3 then
      some (acc, cs.drop 3)
    else if c = '\n' then none
    else squashSplit (acc ++ [c]) cs

/-- The regex engine's left-to-right search over start positions: a match
must begin with the literal marker text. -/
def squashScan : List Char → Option (List Char × List Char)
  | [] => none
  | c :: cs =>
    if squashMarker.isPrefixOf (c :: cs) then
      match squashSplit [] ((c :: cs).drop squashMarker.length) with
      | some r => some r
      | none => squashScan cs
    else squashScan cs

/-- The source's `parseSquashMessage`: the `includes` guard and a failed
regex match are both observable as `null`, so the model is the regex match
itself, returning the two captured groups. -/
def parseSquashMessage (message : String) : Option (String × String) :=
  (squashScan message.data).map fun r => (String.mk r.1, String.mk r.2)

/-- The squash-commit subject built by `commitSquash`. -/
def squashSubject (startHash endHash : String) : String :=
  "chore(sync): squash commits from " ++ startHash ++ " to " ++ endHash

/-! ## The identity oracle (`getTargetHash`) -/

/-- Git queries issued by the oracle, as environment functions.
`sourceLog h` is the output of `log --format=%ct %at %B -1 h` on the source;
`primaryQuery ct msg` is the date-bounded
`log --after=ct --before=ct --grep msg --fixed-strings --format=%H --all`
on the target (as lines); `fallbackQuery msg` is the same query without the
date bounds, with format `%H %at` (as lines). -/
structure OracleEnv where
  sourceLog : String → String
  primaryQuery : String → String → List String
  fallbackQuery : String → List String

/-- Lines 1158-1160 of the source: keep only the first line of the raw body. -/
def firstBodyLine (body : String) : String :=
  if '\n' ∈ body.data then (split body "\n").1 else body

/-- Lines 1206-1213 of the source: from the date-free `%H %at` rows, keep
the hashes whose author timestamp equals the source's author timestamp. -/
def fallbackFilter (rows : List String) (authorDate : String) : List String :=
  rows.filterMap fun row =>
    let parts := jsSplit row " "
    if parts.get? 1 = some authorDate then some (parts.getD 0 "") else none

/-- The prefix of the oracle's ambiguity error. -/
def ambiguousPre : String :=
  "Expected to return one commit, but returned more than one commit with the same message in the same second"

/-- The full ambiguity error message thrown at line 1217. -/
def ambiguousMsg (committerDate message hashes : String) : String :=
  ambiguousPre ++ ", committer date: " ++ committerDate ++ ", message: " ++ message
    ++ ": hashes: " ++ hashes

/-- The identity oracle `getTargetHash` (lines 1146-1224): cache lookup,
squash-marker shortcut, date-bounded content search, author-timestamp
fallback, ambiguity error, cache store. A multi-line git output is a list
with more than one element, an empty output is `[]`. -/
def getTargetHash (env : OracleEnv) (cache : Cache) (hash : String) :
    Except String (String × Cache) :=
  match objGet cache hash with
  | some t => .ok (t, cache)
  | none =>
    let lg := env.sourceLog hash
    -- the log is always of the well-formed `%ct %at %B` shape; a malformed
    -- log would crash the JS destructuring, modelled here by "" defaults
    let parts := explode " " lg (some 3)
    let committerDate := parts.getD 0 ""
    let authorDate := parts.getD 1 ""
    let message := firstBodyLine (parts.getD 2 "")
    match parseSquashMessage message with
    | some m => .ok (m.2, cache)
    | none =>
      let primary := env.primaryQuery committerDate message
      let target :=
        if primary = [] ∨ 1 < primary.length then
          fallbackFilter (env.fallbackQuery message) authorDate
        else primary
      if 1 < target.length then
        .error (ambiguousMsg committerDate message (joinStrings "\n" target))
      else
        let t := joinStrings "\n" target
        .ok (t, objSet cache hash t)

/-! ## Candidate filtering and run flags (`syncCommits` scan phase) -/

/-- Oracle environment plus the target-side `diff-tree --no-commit-id
--name-only -r <hash>` query used by `filterEmptyLogs`. -/
structure RepoEnv where
  oracle : OracleEnv
  diffTree : String → String

/-- Lines 650-655: extract the bare hash from a log key
`<graph-prefix>#<hash> <parents>`. -/
def parseLogKeyHash (k : String) : String :=
  (split ((split k "#").2) " ").1

/-- The loop body of `filterEmptyLogs` (lines 650-668): decide whether one
candidate entry is kept, threading the oracle cache. -/
def keepEntry (env : RepoEnv) (cache : Cache) (k : String) :
    Except String (Bool × Cache) :=
  match getTargetHash env.oracle cache (parseLogKeyHash k) with
  | .error e => .error e
  | .ok (t, c) =>
    if t = "" then .ok (true, c)
    else .ok (env.diffTree t ≠ "", c)

/-- `filterEmptyLogs` (lines 648-671): keep the entries with no target
counterpart and the entries whose counterpart changes files; drop the
entries whose counterpart is an empty commit. -/
def filterEmptyLogs (env : RepoEnv) (cache : Cache) :
    List (String × String) → Except String (List (String × String) × Cache)
  | [] => .ok ([], cache)
  | (k, v) :: rest =>
    match keepEntry env cache k with
    | .error e => .error e
    | .ok (b, c) =>
      match filterEmptyLogs env c rest with
      | .error e => .error e
      | .ok (l, c') => .ok (if b then (k, v) :: l else l, c')

/-- `objectValueDiff` (lines 1531-1539): entries of the first map whose
value does not occur among the second map's values. -/
def objectValueDiff (o1 o2 : List (String × String)) : List (String × String) :=
  o1.filter fun kv => !((o2.map Prod.snd).contains kv.2)

/-- The `new` count logged at line 254. -/
def newCountOf (newLogs : List (String × String)) : Int := newLogs.length

/-- The `source` count logged at line 255. -/
def sourceCountOf (sourceLogs : List (String × String)) : Int := sourceLogs.length

/-- The `exists` count logged at line 261 (`sourceCount - newCount`). -/
def existsCountOf (sourceLogs newLogs : List (String × String)) : Int :=
  sourceCountOf sourceLogs - newCountOf newLogs

/-- The `target` count computed at line 256:
`targetLogs.size + (newLogsDiff.size - newLogs.size)`. -/
def targetCountOf (sourceLogs targetLogs newLogs : List (String × String)) : Int :=
  (targetLogs.length : Int) +
    (((objectValueDiff sourceLogs targetLogs).length : Int) - newLogs.length)

/-- Line 274: `this.isContains = sourceCount - targetCount === newCount`. -/
def isContainsOf (sourceLogs targetLogs newLogs : List (String × String)) : Bool :=
  sourceCountOf sourceLogs - targetCountOf sourceLogs targetLogs newLogs
    == newCountOf newLogs

/-- `detectHistorical` (lines 673-678): compare the value of the new logs at
index `newLogs.length - 1` with the source logs' value at the same index
(JS: `undefined !== undefined` is `false`, and the index is `-1` when the
new log set is empty). -/
def detectHistorical (newLogs sourceLogs : List (String × String)) : Bool :=
  let newLogValues := newLogs.map Prod.snd
  let newLogLast : Int := (newLogValues.length : Int) - 1
  jsIndex newLogValues newLogLast != jsIndex (sourceLogs.map Prod.snd) newLogLast

/-! ## The tag filter pipeline (`getFilteredTags`) -/

/-- A tag as parsed from `show-ref --tags -d`. -/
structure Tag where
  hash : String
  annotated : Bool
deriving DecidableEq

/-- `keyDiff` (lines 1541-1549): entries of the first map whose key is
absent from the second map. -/
def keyDiff (o1 o2 : List (String × Tag)) : List (String × Tag) :=
  o1.filter fun kv => (objGet o2 kv.1).isNone

/-- `filterObjectKey` (lines 1418-1436), with the micromatch glob matcher as
an environment function from (keys, patterns) to the matching keys. -/
def filterObjectKey (matcher : List String → List String → List String)
    (object : List (String × Tag)) (inc exc : List String) : List (String × Tag) :=
  if inc = [] ∧ exc = [] then object
  else
    let patterns := inc ++ exc.map (fun item => "!" ++ item)
    let patterns := if inc = [] then "**" :: patterns else patterns
    let keys := matcher (object.map Prod.fst) patterns
    keys.filterMap fun k => (objGet object k).map fun v => (k, v)

/-- `transformTagKey` (lines 634-646): rename every tag to
`addTagPre ++ tag.substring(rmTagPre.length)`, writing the result into a
fresh JS object (`newTags[newTag] = tags[tag]`) — so a colliding renamed
key keeps its first insertion position and takes the value of the last
write, which `objSet` models exactly. `rmTagPre` and `addTagPre` stand for
the source's removeTagPrefix and addTagPrefix options. -/
def transformTagKey (tags : List (String × Tag)) (rmTagPre addTagPre : String) :
    List (String × Tag) :=
  if rmTagPre = "" ∧ addTagPre = "" then tags
  else
    tags.foldl (fun newTags kv =>
      objSet newTags (addTagPre ++ String.mk (kv.1.data.drop rmTagPre.length)) kv.2) []

/-- `getFilteredTags` (lines 604-632) without the logging: key-level diff,
implicit include entry for a set removeTagPrefix, glob filtering, prefix
transform, and a final key-level diff against the target's tags. -/
def getFilteredTags (matcher : List String → List String → List String)
    (sourceTags targetTags : List (String × Tag))
    (includeTags excludeTags : List String) (rmTagPre addTagPre : String) :
    List (String × Tag) :=
  let newTags := keyDiff sourceTags targetTags
  let inc := if rmTagPre ≠ "" then includeTags ++ [rmTagPre ++ "*"] else includeTags
  let filterTags := filterObjectKey matcher newTags inc excludeTags
  let filterTags := transformTagKey filterTags rmTagPre addTagPre
  keyDiff filterTags targetTags

/-! ## The pathspec helper (`withPaths`) -/

/-- `withPaths` (lines 1641-1647): omit the `--` terminator exactly when
the path list is the single root path `./`. -/
def withPaths (args paths : List String) : List String :=
  if paths.length = 1 ∧ paths.getD 0 "" = "./" then args
  else args ++ "--" :: paths

/-! ## The patch applier as a state machine (`applyPatch`) -/

/-- Observable git actions of the patch applier. `applyAttempt` records
the commit being applied and the ref `HEAD` is on at that moment. -/
inductive Ev where
  | checkoutTemp (name target : String)
  | checkoutDefault (name : String)
  | applyAttempt (hash ref : String)
  | checkoutTheirs
  | resetHard
  | createConflict (name target : String)
  | mergeCmd (hashes : List String)
  | overwriteEv (hash : String)
  | commitEv (hash : String)
deriving DecidableEq

/-- Transient run state of the engine (the `Sync` instance fields touched by
`applyPatch`), plus counters for the environment's query streams and the
accumulated action trace. -/
structure SyncState where
  isContains : Bool
  isHistorical : Bool
  isConflict : Bool
  currentBranch : String
  defaultBranch : String
  conflictBranch : String
  conflictBranches : List String
  tempBranches : List String
  targetHashes : Cache
  headRef : String
  applyCalls : Nat
  revCalls : Nat
  trace : List Ev
deriving DecidableEq

/-- Environment of the engine: the oracle's queries, the result of the nth
`git apply` invocation, the result of the nth `rev-parse HEAD`, and the two
queries of `syncToConflictBranch` (`log --format=%ct %B -1 --skip=1 <hash>`
on the source and the date-and-grep search over all target refs). -/
structure EngineEnv where
  oracle : OracleEnv
  applyOk : Nat → Bool
  revParse : Nat → String
  sourceLogSkip : String → String
  targetGrepAll : String → String → String

/-- Append one observable action to the trace. -/
def addEv (st : SyncState) (e : Ev) : SyncState := { st with trace := st.trace ++ [e] }

/-- The git empty-tree hash used as the sentinel parent (line 396/815). -/
def emptyTreeHash : String := "4b825dc642cb6eb9a060e54bf8d69288fbee4904"

/-- `getConflictBranchName` (lines 1604-1606). -/
def getConflictBranchName (name : String) : String := name ++ "-gitsync-conflict"

/-- One `rev-parse HEAD` invocation, consuming the environment stream. -/
def revParseHead (env : EngineEnv) (st : SyncState) : String × SyncState :=
  (env.revParse st.revCalls, { st with revCalls := st.revCalls + 1 })

/-- `setTargetHash` (lines 1142-1144): unconditional store into the
identity map. -/
def setTargetHash (st : SyncState) (hash target : String) : SyncState :=
  { st with targetHashes := objSet st.targetHashes hash target }

/-- `checkoutTempBranch` (lines 1129-1133): `checkout -B sync-<branch>` at
the oracle-resolved hash, recording the temp branch for teardown. -/
def checkoutTempBranch (env : EngineEnv) (st : SyncState) (branch : String) :
    Except String SyncState :=
  let name := "sync-" ++ branch
  match getTargetHash env.oracle st.targetHashes branch with
  | .error e => .error e
  | .ok (t, c) =>
    let st := addEv { st with targetHashes := c } (.checkoutTemp name t)
    .ok { st with
          headRef := name,
          tempBranches :=
            if st.tempBranches.contains name then st.tempBranches
            else st.tempBranches ++ [name] }

/-- Lines 910-929 of `syncToConflictBranch`: search the source for the
prior commit on the subpath (`--skip=1`) and, when found, locate its target
counterpart via the date-and-grep search over all target refs; an empty
prior log yields the empty string. -/
def conflictSearchHash (env : EngineEnv) (hash : String) : String :=
  let lg := env.sourceLogSkip hash
  if lg ≠ "" then
    let parts := explode " " lg (some 2)
    let message := parts.getD 1 ""
    let shortMessage := (explode "\n" message (some 2)).getD 0 ""
    env.targetGrepAll (parts.getD 0 "") shortMessage
  else ""

/-- `syncToConflictBranch` (lines 906-944): `checkout --theirs .`; on the
first conflict of the run, locate the prior commit's target counterpart
(falling back to `rev-parse HEAD`), `reset --hard`, create and switch to
`<current checked-out branch>-gitsync-conflict`, set the conflict flag and
record the diverted branch. -/
def syncToConflictBranch (env : EngineEnv) (st : SyncState) (hash : String) : SyncState :=
  let st := addEv st .checkoutTheirs
  if st.isConflict then st
  else
    let targetHash := conflictSearchHash env hash
    let (targetHash, st) :=
      if targetHash = "" then revParseHead env st else (targetHash, st)
    let st := addEv st .resetHard
    let branch := st.headRef
    let cb := getConflictBranchName branch
    let st := addEv st (.createConflict cb targetHash)
    { st with
      conflictBranch := cb, headRef := cb, isConflict := true,
      conflictBranches := st.conflictBranches ++ [branch] }

/-- The hash the conflict branch is rooted at: the located counterpart, or
`rev-parse HEAD` when the search came back empty. -/
def conflictLocateHash (env : EngineEnv) (st : SyncState) (hash : String) : String :=
  if conflictSearchHash env hash = "" then env.revParse st.revCalls
  else conflictSearchHash env hash

/-- The rev-parse counter after `syncToConflictBranch`'s first-conflict
path: one `rev-parse HEAD` is consumed exactly when the search was empty. -/
def conflictRevCalls (env : EngineEnv) (st : SyncState) (hash : String) : Nat :=
  if conflictSearchHash env hash = "" then st.revCalls + 1 else st.revCalls

/-- The worktree overwrite (§4.6.7, lines 946-1015), abstracted to one
observable action: its file operations do not touch the run state tracked
here and no claim concerns its internals. -/
def overwrite (st : SyncState) (hash : String) : SyncState :=
  addEv st (.overwriteEv hash)

/-- `commit` (lines 1250-1274): `add -u`, the beforeCommit hook, the
metadata fetch and `git commit` are state-neutral here, observable as one
commit action. -/
def commitOp (st : SyncState) (hash : String) : SyncState :=
  addEv st (.commitEv hash)

/-- The common tail of `applyPatch` and `mergeParents`:
`commit(hash)` then `setTargetHash(hash, rev-parse HEAD)`. -/
def commitAndRecord (env : EngineEnv) (st : SyncState) (hash : String) : SyncState :=
  let st := commitOp st hash
  let (head, st) := revParseHead env st
  setTargetHash st hash head

/-- Resolve every parent through the oracle (loop at lines 1235-1237). -/
def resolveParents (env : EngineEnv) (cache : Cache) :
    List String → Except String (List String × Cache)
  | [] => .ok ([], cache)
  | p :: ps =>
    match getTargetHash env.oracle cache p with
    | .error e => .error e
    | .ok (t, c) =>
      match resolveParents env c ps with
      | .error e => .error e
      | .ok (ts, c') => .ok (t :: ts, c')

/-- `handleConflict` (lines 1276-1282). -/
def handleConflict (env : EngineEnv) (st : SyncState) (hash : String) : SyncState :=
  if st.isContains && !st.isHistorical then overwrite st hash
  else syncToConflictBranch env st hash

/-- `mergeParents` (lines 1226-1248): resolve the parents, run the merge
(its failure is swallowed), run the conflict shim, commit and record. -/
def mergeParents (env : EngineEnv) (st : SyncState) (hash : String)
    (parents : List String) : Except String SyncState :=
  match resolveParents env st.targetHashes parents with
  | .error e => .error e
  | .ok (ts, c) =>
    let st := addEv { st with targetHashes := c } (.mergeCmd ts)
    let st := handleConflict env st hash
    .ok (commitAndRecord env st hash)

/-- Lines 800-818 of `applyPatch`: parse a log key into the current-line
flag, the commit hash and the parent list (with the empty-tree sentinel). -/
def parseLogKey (k : String) : Bool × String × List String :=
  let isCur0 := k.data.head? == some '*'
  let rest := (split k "#").2
  let hash := (split rest " ").1
  let parentRaw := (split rest " ").2
  let isCur := isCur0 || parentRaw == ""
  let parentStr := if parentRaw == "" then emptyTreeHash else parentRaw
  (isCur, hash, jsSplit parentStr " ")

/-- Lines 820-828 of `applyPatch`: branch selection before applying. -/
def branchSelect (env : EngineEnv) (st : SyncState) (isCur : Bool)
    (parents : List String) : Except String SyncState :=
  if !isCur then
    match checkoutTempBranch env st (parents.getD 0 "") with
    | .error e => .error e
    | .ok st => .ok { st with currentBranch := parents.getD 0 "" }
  else if st.currentBranch ≠ st.defaultBranch then
    let st := addEv st (.checkoutDefault st.defaultBranch)
    .ok { st with headRef := st.defaultBranch, currentBranch := st.defaultBranch }
  else .ok st

/-- `applyPatch` (lines 799-904) with explicit recursion fuel: parse the
key, select the branch, take the merge path for multi-parent commits,
otherwise apply the patch and on failure run the conflict shim of §4.6.5,
which on the first failure of a non-contains run recursively re-enters
`applyPatch`. The fuel-0 arm is unreachable from `applyPatch` below:
`syncToConflictBranch` sets `isConflict`, and the `isConflict` arm of the
shim does not recurse, so the source's recursion depth is at most two. -/
def applyPatchFuel (env : EngineEnv) : Nat → SyncState → String → Except String SyncState
  | 0, _, _ => .error "applyPatch recursion limit"
  | fuel + 1, st, fullKey =>
    let (isCur, hash, parents) := parseLogKey fullKey
    match branchSelect env st isCur parents with
    | .error e => .error e
    | .ok st =>
      if 1 < parents.length then mergeParents env st hash parents
      else
        let ok := env.applyOk st.applyCalls
        let st := { addEv st (.applyAttempt hash st.headRef) with applyCalls := st.applyCalls + 1 }
        if ok then .ok (commitAndRecord env st hash)
        else if st.isContains then
          let st := if st.isHistorical then syncToConflictBranch env st hash else st
          .ok (commitAndRecord env (overwrite st hash) hash)
        else if !st.isConflict then
          applyPatchFuel env fuel (syncToConflictBranch env st hash) fullKey
        else
          .ok (commitAndRecord env (syncToConflictBranch env st hash) hash)

/-- `applyPatch` with the fuel that reproduces the source exactly. -/
def applyPatch (env : EngineEnv) (st : SyncState) (fullKey : String) :
    Except String SyncState :=
  applyPatchFuel env 2 st fullKey

/-- Is an event a `git apply` attempt? -/
def Ev.isApply : Ev → Bool
  | .applyAttempt _ _ => true
  | _ => false

/-- Is an event the creation of a conflict branch? -/
def Ev.isCreate : Ev → Bool
  | .createConflict _ _ => true
  | _ => false

/-! ## Spec-side comparison definitions -/

/-- The C4 claim's condition, reading "last" chronologically: the newest new
commit (first in the stored newest-first scan order) equals the newest
commit of the source's scanned logs. -/
def lastChronNewEqLastChronSource (newLogs sourceLogs : List (String × String)) : Bool :=
  (newLogs.map Prod.snd).head? == (sourceLogs.map Prod.snd).head?

/-- The C4 claim's condition, reading "last" in stored scan order: the final
stored new entry equals the final stored source entry. -/
def lastScanNewEqLastScanSource (newLogs sourceLogs : List (String × String)) : Bool :=
  (newLogs.map Prod.snd).getLast? == (sourceLogs.map Prod.snd).getLast?

/-! ## Concrete fixtures for witnesses and counterexamples -/

/-- An oracle environment whose every query is empty. -/
def envTriv : OracleEnv :=
  { sourceLog := fun _ => "", primaryQuery := fun _ _ => [], fallbackQuery := fun _ => [] }

/-- Oracle fixture for the ambiguity fallback: the primary query is empty
and the date-free query returns two rows with the matching author second. -/
def envC1w : OracleEnv :=
  { sourceLog := fun h => if h = "h1" then "10 20 msg" else ""
    primaryQuery := fun _ _ => []
    fallbackQuery := fun m => if m = "msg" then ["t1 20", "t2 20"] else [] }

/-- Repo fixture where the oracle resolves a counterpart whose diff-tree
listing is non-empty. -/
def envC2x : RepoEnv :=
  { oracle :=
      { sourceLog := fun h => if h = "a" then "10 20 msg" else ""
        primaryQuery := fun d m => if d = "10" ∧ m = "msg" then ["t1"] else []
        fallbackQuery := fun _ => [] }
    diffTree := fun t => if t = "t1" then "file.txt" else "" }

/-- Oracle fixture whose source log carries a squash-marker subject; the
target queries would return an unrelated hash, showing they are not used. -/
def envC6w : OracleEnv :=
  { sourceLog := fun h =>
      if h = "h1" then "10 20 chore(sync): squash commits from abc123 to def456" else ""
    primaryQuery := fun _ _ => ["zzz"]
    fallbackQuery := fun _ => ["zzz 20"] }

/-- Engine fixture for a successful trunk-commit projection. -/
def envC7x : EngineEnv :=
  { oracle := envTriv
    applyOk := fun _ => true
    revParse := fun _ => "hd0"
    sourceLogSkip := fun _ => ""
    targetGrepAll := fun _ _ => "" }

/-- Run state whose identity map already carries the oracle's cached empty
not-found entry for source hash `a`. -/
def stC7x : SyncState :=
  { isContains := false, isHistorical := false, isConflict := false
    currentBranch := "master", defaultBranch := "master"
    conflictBranch := "", conflictBranches := [], tempBranches := []
    targetHashes := [("a", "")], headRef := "master"
    applyCalls := 0, revCalls := 0, trace := [] }

/-- Engine fixture for a first-failure retry: the first `git apply` fails,
the second succeeds; the oracle resolves parent `b` to `tb`. -/
def envC5x : EngineEnv :=
  { oracle :=
      { sourceLog := fun x => if x = "b" then "5 6 pm" else ""
        primaryQuery := fun d m => if d = "5" ∧ m = "pm" then ["tb"] else []
        fallbackQuery := fun _ => [] }
    applyOk := fun n => n == 1
    revParse := fun n => if n = 0 then "h0" else "h1"
    sourceLogSkip := fun _ => ""
    targetGrepAll := fun _ _ => "" }

/-- Fresh run state on the default branch with an empty identity map. -/
def stC5x : SyncState :=
  { isContains := false, isHistorical := false, isConflict := false
    currentBranch := "master", defaultBranch := "master"
    conflictBranch := "", conflictBranches := [], tempBranches := []
    targetHashes := [], headRef := "master"
    applyCalls := 0, revCalls := 0, trace := [] }

/-- Engine fixture for the C5 witness: every `git apply` fails. -/
def envC5w : EngineEnv :=
  { oracle := envTriv
    applyOk := fun _ => false
    revParse := fun n => if n = 0 then "h0" else "h1"
    sourceLogSkip := fun _ => ""
    targetGrepAll := fun _ _ => "" }

/-- The glob matcher fixture: returns the keys unchanged, which agrees with
micromatch at the evaluated input (micromatch against patterns
`x*` and `v*` keeps the key `x1`). -/
def matcherC8x (keys : List String) (_patterns : List String) : List String := keys

/-! ## Lemmas on the JS string primitives -/

theorem splitSeqF_congr (d : List Char) :
    ∀ (n m : Nat) (l : List Char), l.length ≤ n → l.length ≤ m →
      splitSeqF d n l = splitSeqF d m l := by
  intro n
  induction n with
  | zero =>
    intro m l hn _
    have hl : l = [] := List.length_eq_zero.mp (Nat.le_zero.mp hn)
    subst hl
    cases m <;> rfl
  | succ n ih =>
    intro m l hn hm
    cases l with
    | nil => cases m <;> rfl
    | cons c cs =>
      cases m with
      | zero => simp at hm
      | succ m =>
        simp only [splitSeqF]
        by_cases hd : d ≠ [] ∧ d.isPrefixOf (c :: cs)
        · rw [if_pos hd, if_pos hd]
          have hdl : 0 < d.length := List.length_pos.mpr hd.1
          have h1 : ((c :: cs).drop d.length).length ≤ n := by
            simp only [List.length_drop, List.length_cons]
            simp only [List.length_cons] at hn
            omega
          have h2 : ((c :: cs).drop d.length).length ≤ m := by
            simp only [List.length_drop, List.length_cons]
            simp only [List.length_cons] at hm
            omega
          rw [ih _ _ h1 h2]
        · rw [if_neg hd, if_neg hd]
          have h1 : cs.length ≤ n := by
            simp only [List.length_cons] at hn; omega
          have h2 : cs.length ≤ m := by
            simp only [List.length_cons] at hm; omega
          rw [ih _ _ h1 h2]

theorem splitSeq_nil (d : List Char) : splitSeq d [] = [[]] := rfl

theorem splitSeq_cons (d : List Char) (c : Char) (cs : List Char) :
    splitSeq d (c :: cs) =
      if d ≠ [] ∧ d.isPrefixOf (c :: cs) then
        [] :: splitSeq d ((c :: cs).drop d.length)
      else
        match splitSeq d cs with
        | [] => [[c]]
        | r :: rs => (c :: r) :: rs := by
  show splitSeqF d (cs.length + 1) (c :: cs) = _
  simp only [splitSeqF]
  by_cases hd : d ≠ [] ∧ d.isPrefixOf (c :: cs)
  · rw [if_pos hd, if_pos hd]
    have hdl : 0 < d.length := List.length_pos.mpr hd.1
    have h1 : ((c :: cs).drop d.length).length ≤ cs.length := by
      simp only [List.length_drop, List.length_cons]; omega
    rw [splitSeqF_congr d _ _ _ h1 (Nat.le_refl _)]
    rfl
  · rw [if_neg hd, if_neg hd]
    rfl

theorem splitSeq_ne_nil (d l : List Char) : splitSeq d l ≠ [] := by
  cases l with
  | nil => simp [splitSeq_nil]
  | cons c cs =>
    rw [splitSeq_cons]
    by_cases hd : d ≠ [] ∧ d.isPrefixOf (c :: cs)
    · rw [if_pos hd]; simp
    · rw [if_neg hd]
      cases splitSeq d cs <;> simp

theorem joinWith_cons_of_ne (d x : List Char) (ys : List (List Char)) (h : ys ≠ []) :
    joinWith d (x :: ys) = x ++ d ++ joinWith d ys := by
  cases ys with
  | nil => exact absurd rfl h
  | cons y ys => rfl

theorem joinWith_splitSeq_bounded (d : List Char) (hd : d ≠ []) :
    ∀ (n : Nat) (l : List Char), l.length ≤ n → joinWith d (splitSeq d l) = l := by
  intro n
  induction n with
  | zero =>
    intro l h
    have hl : l = [] := List.length_eq_zero.mp (Nat.le_zero.mp h)
    subst hl; rfl
  | succ n ih =>
    intro l h
    cases l with
    | nil => rfl
    | cons c cs =>
      rw [splitSeq_cons]
      by_cases hp : d.isPrefixOf (c :: cs)
      · rw [if_pos ⟨hd, hp⟩]
        obtain ⟨t, ht⟩ := List.isPrefixOf_iff_prefix.mp hp
        have hdrop : (c :: cs).drop d.length = t := by
          rw [← ht]; exact List.drop_left d t
        rw [hdrop]
        have hdl : 0 < d.length := List.length_pos.mpr hd
        have htn : t.length ≤ n := by
          have := congrArg List.length ht
          simp only [List.length_append, List.length_cons] at this
          simp only [List.length_cons] at h
          omega
        have hih := ih t htn
        rw [joinWith_cons_of_ne d [] (splitSeq d t) (splitSeq_ne_nil d t), hih]
        simpa using ht
      · rw [if_neg (fun hc => hp hc.2)]
        have hih := ih cs (by simp only [List.length_cons] at h; omega)
        cases hS : splitSeq d cs with
        | nil => exact absurd hS (splitSeq_ne_nil d cs)
        | cons r rs =>
          rw [hS] at hih
          cases rs with
          | nil =>
            simp only [joinWith] at hih ⊢
            rw [hih]
          | cons r2 rs2 =>
            rw [joinWith_cons_of_ne d (c :: r) (r2 :: rs2) (by simp)]
            rw [joinWith_cons_of_ne d r (r2 :: rs2) (by simp)] at hih
            rw [← hih]
            simp

theorem joinWith_splitSeq (d : List Char) (hd : d ≠ []) (l : List Char) :
    joinWith d (splitSeq d l) = l :=
  joinWith_splitSeq_bounded d hd l.length l (Nat.le_refl _)

theorem splitSeq_single_append (c : Char) (rest : List Char) :
    ∀ (a : List Char), c ∉ a →
      splitSeq [c] (a ++ c :: rest) = a :: splitSeq [c] rest := by
  intro a
  induction a with
  | nil =>
    intro _
    rw [List.nil_append, splitSeq_cons]
    rw [if_pos ⟨by simp, by simp [List.isPrefixOf]⟩]
    rfl
  | cons x a ih =>
    intro hx
    have hxc : x ≠ c := fun h => hx (by simp [h])
    rw [List.cons_append, splitSeq_cons]
    rw [if_neg (by simp [List.isPrefixOf, hxc.symm])]
    rw [ih (fun h => hx (by simp [h]))]

theorem splitSeq_single_no_occ (c : Char) :
    ∀ (l : List Char), c ∉ l → splitSeq [c] l = [l] := by
  intro l
  induction l with
  | nil => intro _; rfl
  | cons x xs ih =>
    intro hx
    have hxc : x ≠ c := fun h => hx (by simp [h])
    rw [splitSeq_cons]
    rw [if_neg (by simp [List.isPrefixOf, hxc.symm])]
    rw [ih (fun h => hx (by simp [h]))]

theorem splitFirstGo_no_occ (c : Char) :
    ∀ (l : List Char), c ∉ l → ∀ acc, splitFirstGo [c] acc l = none := by
  intro l
  induction l with
  | nil => intro _ acc; rfl
  | cons x xs ih =>
    intro hx acc
    have hxc : x ≠ c := fun h => hx (by simp [h])
    show splitFirstGo [c] acc (x :: xs) = none
    simp only [splitFirstGo]
    rw [if_neg (by simp [List.isPrefixOf, hxc.symm])]
    exact ih (fun h => hx (by simp [h])) _

theorem splitFirstGo_first (c : Char) (rest : List Char) :
    ∀ (a : List Char), c ∉ a → ∀ acc,
      splitFirstGo [c] acc (a ++ c :: rest) = some (acc ++ a, rest) := by
  intro a
  induction a with
  | nil =>
    intro _ acc
    rw [List.nil_append]
    show splitFirstGo [c] acc (c :: rest) = some (acc ++ [], rest)
    simp only [splitFirstGo]
    rw [if_pos ⟨by simp, by simp [List.isPrefixOf]⟩]
    simp
  | cons x a ih =>
    intro hx acc
    have hxc : x ≠ c := fun h => hx (by simp [h])
    rw [List.cons_append]
    show splitFirstGo [c] acc (x :: (a ++ c :: rest)) = some (acc ++ x :: a, rest)
    simp only [splitFirstGo]
    rw [if_neg (by simp [List.isPrefixOf, hxc.symm])]
    rw [ih (fun h => hx (by simp [h])) (acc ++ [x])]
    simp

theorem data_eq_nil_iff (d : String) : d.data = [] ↔ d = "" := by
  constructor
  · intro h
    have : String.mk d.data = String.mk [] := by rw [h]
    exact this
  · intro h; rw [h]

theorem split_first (s d : String) (c : Char) (a b : List Char)
    (hd : d.data = [c]) (hs : s.data = a ++ c :: b) (ha : c ∉ a) :
    split s d = (String.mk a, String.mk b) := by
  unfold split
  rw [hd, hs, splitFirstGo_first c b a ha []]
  simp

theorem split_no_occ (s d : String) (c : Char) (hd : d.data = [c])
    (h : c ∉ s.data) : split s d = (s, "") := by
  unfold split
  rw [hd, splitFirstGo_no_occ c s.data h []]

theorem isPrefixOf_append_self (l t : List Char) : l.isPrefixOf (l ++ t) = true := by
  rw [ List.isPrefixOf_iff_prefix]
  exact List.prefix_append l t

theorem joinStrings_mk (d : String) (L : List (List Char)) :
    joinStrings d (L.map String.mk) = String.mk (joinWith d.data L) := by
  unfold joinStrings
  congr 1
  rw [List.map_map]
  have : (String.data ∘ String.mk) = id := rfl
  rw [this, List.map_id]

theorem joinStrings_jsSplit (s d : String) (hd : d ≠ "") :
    joinStrings d (jsSplit s d) = s := by
  unfold jsSplit
  rw [joinStrings_mk]
  rw [joinWith_splitSeq d.data (fun h => hd ((data_eq_nil_iff d).mp h)) s.data]

theorem jsSplit_single_no_occ (s d : String) (c : Char) (hd : d.data = [c])
    (h : c ∉ s.data) : jsSplit s d = [s] := by
  unfold jsSplit
  rw [hd, splitSeq_single_no_occ c s.data h]
  rfl

theorem joinWith_append_join (d : List Char) (A B : List (List Char)) (hB : B ≠ []) :
    joinWith d (A ++ [joinWith d B]) = joinWith d (A ++ B) := by
  induction A with
  | nil =>
    rw [List.nil_append, List.nil_append]
    cases B with
    | nil => exact absurd rfl hB
    | cons b bs => rfl
  | cons x A ih =>
    rw [List.cons_append, List.cons_append]
    rw [joinWith_cons_of_ne d x (A ++ [joinWith d B]) (by simp)]
    rw [joinWith_cons_of_ne d x (A ++ B)
      (fun h => hB (List.append_eq_nil.mp h).2)]
    rw [ih]

theorem joinStrings_append_join (d : String) (A B : List String) (hB : B ≠ []) :
    joinStrings d (A ++ [joinStrings d B]) = joinStrings d (A ++ B) := by
  unfold joinStrings
  congr 1
  rw [List.map_append, List.map_append]
  have hmap : ([String.mk (joinWith d.data (B.map String.data))].map String.data)
      = [joinWith d.data (B.map String.data)] := rfl
  rw [hmap]
  exact joinWith_append_join d.data (A.map String.data) (B.map String.data)
    (by simpa using hB)

theorem explode_three_generic (s d p1 p2 : String) (S : List (List Char))
    (hparts : jsSplit s d = p1 :: p2 :: S.map String.mk) (hS : S ≠ []) :
    explode d s (some 3) = [p1, p2, String.mk (joinWith d.data S)] := by
  unfold explode
  rw [hparts]
  cases S with
  | nil => exact absurd rfl hS
  | cons x xs =>
    cases xs with
    | nil =>
      have hlen : ((p1 :: p2 :: [x].map String.mk).length : Int) ≤ 3 := by simp
      simp only [show ¬(3 : Int) = 0 by norm_num, if_false, show (0 : Int) < 3 by norm_num,
        if_true, if_pos hlen]
      rfl
    | cons x2 xs2 =>
      have hlen : ¬ ((p1 :: p2 :: ((x :: x2 :: xs2).map String.mk)).length : Int) ≤ 3 := by
        simp
        omega
      simp only [show ¬(3 : Int) = 0 by norm_num, if_false, show (0 : Int) < 3 by norm_num,
        if_true, if_neg hlen]
      have htake : (p1 :: p2 :: ((x :: x2 :: xs2).map String.mk)).take ((3 : Int).toNat - 1)
          = [p1, p2] := rfl
      have hdrop : (p1 :: p2 :: ((x :: x2 :: xs2).map String.mk)).drop ((3 : Int).toNat - 1)
          = (x :: x2 :: xs2).map String.mk := rfl
      rw [htake, hdrop, joinStrings_mk]
      rfl

theorem explode_space_three (ct ad subj : String)
    (h1 : ' ' ∉ ct.data) (h2 : ' ' ∉ ad.data) :
    explode " " (String.mk (ct.data ++ ' ' :: (ad.data ++ ' ' :: subj.data))) (some 3) =
      [ct, ad, subj] := by
  have hsplit : jsSplit (String.mk (ct.data ++ ' ' :: (ad.data ++ ' ' :: subj.data))) " "
      = ct :: ad :: (splitSeq [' '] subj.data).map String.mk := by
    unfold jsSplit
    show (splitSeq [' '] (ct.data ++ ' ' :: (ad.data ++ ' ' :: subj.data))).map String.mk = _
    rw [splitSeq_single_append ' ' (ad.data ++ ' ' :: subj.data) ct.data h1]
    rw [splitSeq_single_append ' ' subj.data ad.data h2]
    rfl
  rw [explode_three_generic _ " " ct ad (splitSeq [' '] subj.data) hsplit
    (splitSeq_ne_nil [' '] subj.data)]
  have hj : joinWith (" " : String).data (splitSeq [' '] subj.data) = subj.data :=
    joinWith_splitSeq [' '] (by simp) subj.data
  rw [hj]

/-! ## Lemmas on the squash-marker parser -/

theorem squashSplit_sep (B : List Char) (hB : B ≠ []) (hBn : '\n' ∉ B) :
    ∀ (A acc : List Char), (∀ x ∈ A, x ≠ ' ' ∧ x ≠ '\n') → acc ++ A ≠ [] →
      squashSplit acc (A ++ ' ' :: 't' :: 'o' :: ' ' :: B) = some (acc ++ A, B) := by
  intro A
  induction A with
  | nil =>
    intro acc _ hne
    rw [List.append_nil] at hne
    rw [List.nil_append, List.append_nil]
    show squashSplit acc (' ' :: 't' :: 'o' :: ' ' :: B) = some (acc, B)
    simp [squashSplit, List.isPrefixOf, hne, hB, hBn]
  | cons x A ih =>
    intro acc hA hne
    have hx := hA x (by simp)
    rw [List.cons_append]
    show squashSplit acc (x :: (A ++ ' ' :: 't' :: 'o' :: ' ' :: B)) = some (acc ++ x :: A, B)
    simp only [squashSplit]
    rw [if_neg (fun hc => hx.1 hc.2.1)]
    rw [if_neg hx.2]
    have := ih (acc ++ [x]) (fun y hy => hA y (by simp [hy])) (by simp)
    rw [this]
    simp

set_option maxHeartbeats 1000000 in
theorem squashScan_marker (X : List Char) (r : List Char × List Char)
    (h : squashSplit [] X = some r) : squashScan (squashMarker ++ X) = some r := by
  obtain ⟨T, hm⟩ : ∃ T, squashMarker = 'c' :: T :=
    ⟨"hore(sync): squash commits from ".data, by decide⟩
  have e : squashMarker ++ X = 'c' :: (T ++ X) := by rw [hm, List.cons_append]
  have hpre : squashMarker.isPrefixOf ('c' :: (T ++ X)) = true := by
    rw [← e]; exact isPrefixOf_append_self _ _
  have hdrop : ('c' :: (T ++ X)).drop squashMarker.length = X := by
    rw [← e]; exact List.drop_left _ _
  rw [e]
  simp only [squashScan]
  rw [if_pos hpre, hdrop, h]

theorem parseSquashMessage_subject (A B : String) (hA : A ≠ "") (hB : B ≠ "")
    (hAs : ' ' ∉ A.data) (hAn : '\n' ∉ A.data) (hBn : '\n' ∉ B.data) :
    parseSquashMessage (squashSubject A B) = some (A, B) := by
  have hdata : (squashSubject A B).data
      = squashMarker ++ (A.data ++ ' ' :: 't' :: 'o' :: ' ' :: B.data) := by
    show ("chore(sync): squash commits from " ++ A ++ " to " ++ B).data = _
    rw [String.data_append, String.data_append, String.data_append]
    rw [List.append_assoc, List.append_assoc]
    rfl
  have hsplit : squashSplit [] (A.data ++ ' ' :: 't' :: 'o' :: ' ' :: B.data)
      = some ([] ++ A.data, B.data) :=
    squashSplit_sep B.data (fun h => hB ((data_eq_nil_iff B).mp h)) hBn A.data []
      (fun x hx => ⟨fun hc => hAs (hc ▸ hx), fun hc => hAn (hc ▸ hx)⟩)
      (by simpa using fun h => hA ((data_eq_nil_iff A).mp h))
  unfold parseSquashMessage
  rw [hdata, squashScan_marker _ _ hsplit]
  simp

/-! ## Claim C10: explode bounds and losslessness -/

/-- Claim C10: for every non-empty delimiter `d`, every string `s`, and
every positive limit `n`, the `explode` helper returns at most `n` elements,
and joining the returned elements with `d` yields exactly `s` — no
characters of the input are lost or duplicated. This underlies the parsing
of the `%an|%ae|%ai|%cn|%ce|%ci|%B` metadata records and the `%ct %at %B`
log records. -/
theorem explode_length_le_and_join (d s : String) (n : Int) (hd : d ≠ "") (hn : 0 < n) :
    ((explode d s (some n)).length : Int) ≤ n ∧
      joinStrings d (explode d s (some n)) = s := by
  have hn0 : ¬ n = 0 := by omega
  simp only [explode]
  rw [if_neg hn0, if_pos hn]
  by_cases hle : ((jsSplit s d).length : Int) ≤ n
  · rw [if_pos hle]
    exact ⟨hle, joinStrings_jsSplit s d hd⟩
  · rw [if_neg hle]
    have hlt : n < ((jsSplit s d).length : Int) := not_le.mp hle
    have hk : n.toNat - 1 < (jsSplit s d).length := by omega
    constructor
    · simp only [List.length_append, List.length_take, List.length_cons, List.length_nil]
      omega
    · have hdropne : (jsSplit s d).drop (n.toNat - 1) ≠ [] := by
        intro hc
        have := congrArg List.length hc
        simp only [List.length_drop, List.length_nil] at this
        omega
      rw [joinStrings_append_join d _ _ hdropne, List.take_append_drop]
      exact joinStrings_jsSplit s d hd

/-- Witness for C10 at `d = "|"`, `s = "a|b|c|d"`, `n = 3`. -/
theorem explode_length_le_and_join_witness :
    ("|" : String) ≠ "" ∧ (0 : Int) < 3 ∧
      (((explode "|" "a|b|c|d" (some 3)).length : Int) ≤ 3 ∧
        joinStrings "|" (explode "|" "a|b|c|d" (some 3)) = "a|b|c|d") :=
  ⟨by decide, by decide, explode_length_le_and_join "|" "a|b|c|d" 3 (by decide) (by decide)⟩

/-! ## Claim C9: the pathspec terminator -/

/-- Claim C9: for every argument vector and path list, `withPaths` omits the
`--` pathspec terminator if and only if the path list consists of the single
path `./`; in every other case it appends `--` followed by all paths. -/
theorem withPaths_root_iff (args paths : List String) :
    (withPaths args paths = args ↔ paths = ["./"]) ∧
      (paths ≠ ["./"] → withPaths args paths = args ++ "--" :: paths) := by
  constructor
  · constructor
    · intro h
      by_contra hne
      have hcond : ¬ (paths.length = 1 ∧ paths.getD 0 "" = "./") := by
        intro hc
        apply hne
        cases paths with
        | nil => simp at hc
        | cons p ps =>
          cases ps with
          | nil => simp_all [List.getD]
          | cons q qs => simp at hc
      rw [withPaths, if_neg hcond] at h
      have := congrArg List.length h
      simp at this
    · intro h
      subst h
      rfl
  · intro hne
    have hcond : ¬ (paths.length = 1 ∧ paths.getD 0 "" = "./") := by
      intro hc
      apply hne
      cases paths with
      | nil => simp at hc
      | cons p ps =>
        cases ps with
        | nil => simp_all [List.getD]
        | cons q qs => simp at hc
    rw [withPaths, if_neg hcond]

/-- Witness for C9 at a non-root path list. -/
theorem withPaths_root_iff_witness :
    withPaths ["log"] ["a/"] = ["log", "--", "a/"] :=
  (withPaths_root_iff ["log"] ["a/"]).2 (by decide)

/-! ## Claim C3: the isContains flag -/

/-- Claim C3: after scanning both sides, the `isContains` flag is set to
true if and only if `sourceCount - targetCount` equals the number of new
commits, where new = `sourceCount - existingCount` (the spec's phrasing of
the strict-superset test at line 274). -/
theorem isContains_iff (sourceLogs targetLogs newLogs : List (String × String)) :
    isContainsOf sourceLogs targetLogs newLogs = true ↔
      sourceCountOf sourceLogs - targetCountOf sourceLogs targetLogs newLogs =
        sourceCountOf sourceLogs - existsCountOf sourceLogs newLogs := by
  unfold isContainsOf existsCountOf targetCountOf sourceCountOf newCountOf
  rw [beq_iff_eq]
  omega

/-! ## Claim C4: the isHistorical flag -/

/-- Claim C4 (amended): for a non-empty set of new commits, `isHistorical`
is false if and only if the value of the last stored new log entry equals
the source's scanned log value at the same position (index
`newLogs.length - 1`) — not the last entry of the source's logs. -/
theorem detectHistorical_iff (newLogs sourceLogs : List (String × String))
    (h : newLogs ≠ []) :
    detectHistorical newLogs sourceLogs = false ↔
      (newLogs.map Prod.snd).getLast? =
        jsIndex (sourceLogs.map Prod.snd) ((newLogs.length : Int) - 1) := by
  unfold detectHistorical
  show (jsIndex (newLogs.map Prod.snd) (((newLogs.map Prod.snd).length : Int) - 1)
      != jsIndex (sourceLogs.map Prod.snd) (((newLogs.map Prod.snd).length : Int) - 1))
      = false ↔ _
  have hpos : 0 < newLogs.length := List.length_pos.mpr h
  have hl : (0 : Int) ≤ ((newLogs.map Prod.snd).length : Int) - 1 := by
    simp only [List.length_map]
    omega
  have hidx : jsIndex (newLogs.map Prod.snd) (((newLogs.map Prod.snd).length : Int) - 1)
      = (newLogs.map Prod.snd).getLast? := by
    unfold jsIndex
    rw [if_pos hl]
    have ht : ((((newLogs.map Prod.snd).length : Int)) - 1).toNat
        = (newLogs.map Prod.snd).length - 1 := by
      simp only [List.length_map]
      omega
    rw [ht, List.getLast?_eq_getElem?, List.get?_eq_getElem?]
  rw [hidx]
  have hlen : (((newLogs.map Prod.snd).length : Int)) - 1 = (newLogs.length : Int) - 1 := by
    simp
  rw [hlen]
  rw [bne_eq_false_iff_eq]

/-- Witness for C4 (amended) at a two-entry new set inside a three-entry
source scan. -/
theorem detectHistorical_iff_witness :
    detectHistorical [("#k0 p", "17 v0"), ("#k1 p", "16 v1")]
        [("#k0 p", "17 v0"), ("#k1 p", "16 v1"), ("#k2 p", "15 v2")] = false ↔
      ([("#k0 p", "17 v0"), ("#k1 p", "16 v1")].map Prod.snd).getLast? =
        jsIndex ([("#k0 p", "17 v0"), ("#k1 p", "16 v1"), ("#k2 p", "15 v2")].map Prod.snd)
          ((([("#k0 p", "17 v0"), ("#k1 p", "16 v1")] : List (String × String)).length : Int) - 1) :=
  detectHistorical_iff _ _ (by decide)

/-- Counterexample to C4 as stated: the new logs are the newest and the
oldest source entries. Under the claim's comparison the last new commit
equals the last source commit — chronologically (newest vs newest) and in
stored scan order (oldest vs oldest) alike — so the claim predicts
`isHistorical = false`, yet `detectHistorical` compares index 1 of the new
values with index 1 of the source values and yields `true`. -/
theorem detectHistorical_counterexample :
    detectHistorical [("#k0 p", "17 v0"), ("#k2 p", "15 v2")]
        [("#k0 p", "17 v0"), ("#k1 p", "16 v1"), ("#k2 p", "15 v2")] = true ∧
      lastChronNewEqLastChronSource [("#k0 p", "17 v0"), ("#k2 p", "15 v2")]
        [("#k0 p", "17 v0"), ("#k1 p", "16 v1"), ("#k2 p", "15 v2")] = true ∧
      lastScanNewEqLastScanSource [("#k0 p", "17 v0"), ("#k2 p", "15 v2")]
        [("#k0 p", "17 v0"), ("#k1 p", "16 v1"), ("#k2 p", "15 v2")] = true := by
  decide

/-! ## Claim C1: the oracle's author-timestamp fallback and ambiguity error -/

/-- Claim C1: for every source commit hash given to the identity oracle
whose subject is not a squash marker, when the primary date-bounded search
returns zero or multiple hashes, the oracle re-queries without the date
constraint, keeps only target commits whose author timestamp equals the
source commit's author timestamp, and fails with the error beginning
"Expected to return one commit, but returned more than one commit with the
same message in the same second" if and only if more than one target commit
remains after this fallback. -/
theorem getTargetHash_fallback_ambiguity (env : OracleEnv) (cache : Cache)
    (h ct ad body msg : String)
    (hcache : objGet cache h = none)
    (hparts : explode " " (env.sourceLog h) (some 3) = [ct, ad, body])
    (hmsg : firstBodyLine body = msg)
    (hsq : parseSquashMessage msg = none)
    (hprimary : env.primaryQuery ct msg = [] ∨ 1 < (env.primaryQuery ct msg).length) :
    (∃ e, getTargetHash env cache h = .error e ∧ ambiguousPre.data.isPrefixOf e.data) ↔
      1 < (fallbackFilter (env.fallbackQuery msg) ad).length := by
  have hred : getTargetHash env cache h =
      if 1 < (fallbackFilter (env.fallbackQuery msg) ad).length then
        Except.error (ambiguousMsg ct msg
          (joinStrings "\n" (fallbackFilter (env.fallbackQuery msg) ad)))
      else
        .ok (joinStrings "\n" (fallbackFilter (env.fallbackQuery msg) ad),
          objSet cache h (joinStrings "\n" (fallbackFilter (env.fallbackQuery msg) ad))) := by
    unfold getTargetHash
    simp only [hcache, hparts, List.getD_cons_zero, List.getD_cons_succ]
    rw [hmsg]
    simp only [hsq]
    rw [if_pos hprimary]
  rw [hred]
  by_cases hlen : 1 < (fallbackFilter (env.fallbackQuery msg) ad).length
  · rw [if_pos hlen]
    constructor
    · intro _; exact hlen
    · intro _
      refine ⟨ambiguousMsg ct msg (joinStrings "\n"
        (fallbackFilter (env.fallbackQuery msg) ad)), rfl, ?_⟩
      show ambiguousPre.data.isPrefixOf (ambiguousMsg ct msg _).data = true
      unfold ambiguousMsg
      simp only [String.data_append, List.append_assoc]
      exact isPrefixOf_append_self _ _
  · rw [if_neg hlen]
    constructor
    · rintro ⟨e, he, -⟩
      exact absurd he (by simp)
    · intro hc
      exact absurd hc hlen

/-- Witness for C1: the primary query is empty; two fallback rows share the
source's author second, so the oracle fails with the ambiguity error. -/
theorem getTargetHash_fallback_ambiguity_witness :
    (∃ e, getTargetHash envC1w [] "h1" = .error e ∧
        ambiguousPre.data.isPrefixOf e.data) ↔
      1 < (fallbackFilter (envC1w.fallbackQuery "msg") "20").length :=
  getTargetHash_fallback_ambiguity envC1w [] "h1" "10" "20" "msg" "msg"
    (by decide) (by decide) (by decide) (by decide) (Or.inl (by decide))

/-! ## Claim C6: squash-subject round trip through the oracle -/

/-- Claim C6: for every pair of hash strings A and B (plain hex: non-empty,
no spaces, no newlines), the squash subject
`chore(sync): squash commits from A to B` is parsed by `parseSquashMessage`
back into the pair (A, B), and the identity oracle applied to a commit whose
first body line is that subject returns B immediately — for every target
query environment, without touching the cache — rather than searching the
target repository. -/
theorem parseSquash_oracle_roundtrip (A B ct ad body : String)
    (env : OracleEnv) (cache : Cache) (h : String)
    (hA : A ≠ "") (hB : B ≠ "")
    (hAs : ' ' ∉ A.data) ( _hBs : ' ' ∉ B.data)
    (hAn : '\n' ∉ A.data) (hBn : '\n' ∉ B.data)
    (hct : ' ' ∉ ct.data) (had : ' ' ∉ ad.data)
    (hcache : objGet cache h = none)
    (hlog : env.sourceLog h = String.mk (ct.data ++ ' ' :: (ad.data ++ ' ' :: body.data)))
    (hbody : firstBodyLine body = squashSubject A B) :
    parseSquashMessage (squashSubject A B) = some (A, B) ∧
      getTargetHash env cache h = .ok (B, cache) := by
  have hparse := parseSquashMessage_subject A B hA hB hAs hAn hBn
  refine ⟨hparse, ?_⟩
  unfold getTargetHash
  rw [hlog]
  simp only [hcache, explode_space_three ct ad body hct had,
    List.getD_cons_zero, List.getD_cons_succ]
  rw [hbody]
  simp only [hparse]

/-- Witness for C6 at A = `abc123`, B = `def456`: the target queries return
an unrelated hash `zzz`, yet the oracle answers `def456`. -/
theorem parseSquash_oracle_roundtrip_witness :
    parseSquashMessage (squashSubject "abc123" "def456") = some ("abc123", "def456") ∧
      getTargetHash envC6w [] "h1" = .ok ("def456", []) :=
  parseSquash_oracle_roundtrip "abc123" "def456" "10" "20"
    (squashSubject "abc123" "def456") envC6w [] "h1"
    (by decide) (by decide) (by decide) (by decide) (by decide) (by decide)
    (by decide) (by decide) (by decide) (by decide) (by decide)

/-! ## Claim C7: identity-map writes -/

/-- Claim C7 (amended): the oracle itself never rewrites an existing
identity-map entry — on a cache hit it returns the stored value with the
map unchanged. Projection, however, stores unconditionally through
`setTargetHash`, so an entry cached by the oracle (such as the empty
not-found value) is later replaced by the projected commit hash; see the
counterexample. -/
theorem getTargetHash_cache_hit (env : OracleEnv) (cache : Cache) (h v : String)
    (hc : objGet cache h = some v) :
    getTargetHash env cache h = .ok (v, cache) := by
  unfold getTargetHash
  rw [hc]

/-- Witness for C7 (amended) on a one-entry map. -/
theorem getTargetHash_cache_hit_witness :
    getTargetHash envTriv [("x", "t")] "x" = .ok ("t", [("x", "t")]) :=
  getTargetHash_cache_hit envTriv [("x", "t")] "x" "t" (by decide)

/-- Counterexample to C7 as stated: the oracle, finding no counterpart for
source hash `a`, stores the empty string in the identity map; a later
`applyPatch` of the same run projects `a` and `setTargetHash` replaces that
stored entry with the new head `hd0` — a mapping is rewritten within a run. -/
theorem identityMap_rewrite_counterexample :
    getTargetHash envTriv [] "a" = .ok ("", [("a", "")]) ∧
      (applyPatch envC7x stC7x "* #a b").map (fun st => objGet st.targetHashes "a")
        = .ok (some "hd0") ∧
      (some "" : Option String) ≠ some "hd0" := by
  refine ⟨by decide, ?_, by decide⟩
  decide

/-! ## Claim C2: filterEmptyLogs -/

/-- Claim C2 (amended): a candidate entry is excluded by `filterEmptyLogs`
if and only if the identity oracle resolves a non-empty target counterpart
AND that counterpart's `diff-tree --name-only` listing is empty (an empty
commit); an entry whose counterpart changes files is retained even though a
counterpart exists. -/
theorem filterEmptyLogs_cons (env : RepoEnv) (cache : Cache) (k v : String)
    (rest : List (String × String)) (t : String) (c : Cache)
    (h : getTargetHash env.oracle cache (parseLogKeyHash k) = .ok (t, c)) :
    filterEmptyLogs env cache ((k, v) :: rest) =
      if t = "" ∨ env.diffTree t ≠ "" then
        (filterEmptyLogs env c rest).map (fun p => ((k, v) :: p.1, p.2))
      else filterEmptyLogs env c rest := by
  simp only [filterEmptyLogs]
  unfold keepEntry
  rw [h]
  by_cases ht : t = ""
  · cases hr : filterEmptyLogs env c rest with
    | error e => simp [hr, ht, Except.map]
    | ok pr => simp [hr, ht, Except.map]
  · by_cases hd : env.diffTree t ≠ ""
    · cases hr : filterEmptyLogs env c rest with
      | error e => simp [hr, ht, hd, Except.map]
      | ok pr => simp [hr, ht, hd, Except.map]
    · cases hr : filterEmptyLogs env c rest with
      | error e => simp [hr, ht, hd, Except.map]
      | ok pr => simp [hr, ht, hd, Except.map]

/-- Witness for C2 (amended) at a resolved non-empty counterpart. -/
theorem filterEmptyLogs_cons_witness :
    filterEmptyLogs envC2x [] [("* #a p", "1 msg")] =
      if ("t1" : String) = "" ∨ envC2x.diffTree "t1" ≠ "" then
        (filterEmptyLogs envC2x [("a", "t1")] []).map
          (fun p => (("* #a p", "1 msg") :: p.1, p.2))
      else filterEmptyLogs envC2x [("a", "t1")] [] :=
  filterEmptyLogs_cons envC2x [] "* #a p" "1 msg" [] "t1" [("a", "t1")] (by decide)

/-- Counterexample to C2 as stated: the oracle resolves the existing target
counterpart `t1` for the entry's source hash `a`, yet because `t1`'s
diff-tree listing is non-empty the entry is retained in the returned set —
it is not excluded as the claim requires. -/
theorem filterEmptyLogs_counterexample :
    getTargetHash envC2x.oracle [] (parseLogKeyHash "* #a p") = .ok ("t1", [("a", "t1")]) ∧
      filterEmptyLogs envC2x [] [("* #a p", "1 msg")] =
        .ok ([("* #a p", "1 msg")], [("a", "t1")]) := by
  refine ⟨by decide, ?_⟩
  decide

/-! ## Claim C8: the tag filter pipeline -/

theorem objGet_replace_self {v : Type} (k : String) (x : v) :
    ∀ (m : List (String × v)), (objGet m k).isSome →
      objGet (m.map (fun p => if p.1 == k then (k, x) else p)) k = some x := by
  intro m
  induction m with
  | nil => intro hs; simp [objGet] at hs
  | cons p ps ih =>
    intro hs
    by_cases hp : (p.1 == k) = true
    · simp [objGet, List.find?, hp]
    · have hs' : (objGet ps k).isSome := by
        simpa [objGet, List.find?, hp] using hs
      simpa [objGet, List.find?, hp] using ih hs'

theorem objGet_append_self {v : Type} (k : String) (x : v) :
    ∀ (m : List (String × v)), objGet m k = none →
      objGet (m ++ [(k, x)]) k = some x := by
  intro m
  induction m with
  | nil => intro _; simp [objGet, List.find?]
  | cons p ps ih =>
    intro hn
    by_cases hp : (p.1 == k) = true
    · simp [objGet, List.find?, hp] at hn
    · have hn' : objGet ps k = none := by
        simpa [objGet, List.find?, hp] using hn
      simpa [objGet, List.find?, hp] using ih hn'

/-- JS `obj[key] = value` makes `obj[key]` return `value`. -/
theorem objGet_objSet_self {v : Type} (m : List (String × v)) (k : String) (x : v) :
    objGet (objSet m k x) k = some x := by
  unfold objSet
  by_cases hs : (objGet m k).isSome
  · rw [if_pos hs]
    exact objGet_replace_self k x m hs
  · rw [if_neg hs]
    exact objGet_append_self k x m (Option.not_isSome_iff_eq_none.mp hs)

theorem objGet_replace_isSome {v : Type} (k k' : String) (x : v) (hk : k' ≠ k) :
    ∀ (m : List (String × v)), (objGet m k').isSome →
      (objGet (m.map (fun p => if p.1 == k then (k, x) else p)) k').isSome := by
  intro m
  induction m with
  | nil => intro hs; simp [objGet] at hs
  | cons p ps ih =>
    intro hs
    by_cases hp : (p.1 == k') = true
    · have hpk : (p.1 == k) = false := by
        have h1 : p.1 = k' := beq_iff_eq.mp hp
        exact beq_eq_false_iff_ne.mpr (fun hc => hk (h1.symm.trans hc))
      simp [objGet, List.find?, hp, hpk]
    · have hs' : (objGet ps k').isSome := by
        simpa [objGet, List.find?, hp] using hs
      by_cases hpk : (p.1 == k) = true
      · have hkk' : (k == k') = false := beq_eq_false_iff_ne.mpr (fun hc => hk hc.symm)
        simpa [objGet, List.find?, hpk, hkk'] using ih hs'
      · simpa [objGet, List.find?, hp, hpk] using ih hs'

theorem objGet_append_isSome {v : Type} (k' : String) (l : List (String × v)) :
    ∀ (m : List (String × v)), (objGet m k').isSome →
      (objGet (m ++ l) k').isSome := by
  intro m
  induction m with
  | nil => intro hs; simp [objGet] at hs
  | cons p ps ih =>
    intro hs
    by_cases hp : (p.1 == k') = true
    · simp [objGet, List.find?, hp]
    · have hs' : (objGet ps k').isSome := by
        simpa [objGet, List.find?, hp] using hs
      simpa [objGet, List.find?, hp] using ih hs'

/-- JS object assignment never removes another key. -/
theorem objGet_objSet_isSome {v : Type} (m : List (String × v)) (k k' : String) (x : v)
    (h : (objGet m k').isSome) : (objGet (objSet m k x) k').isSome := by
  by_cases hk : k' = k
  · subst hk
    simp [objGet_objSet_self]
  · unfold objSet
    by_cases hs : (objGet m k).isSome
    · rw [if_pos hs]
      exact objGet_replace_isSome k k' x hk m h
    · rw [if_neg hs]
      exact objGet_append_isSome k' _ m h

/-- Every entry of a JS object after an assignment is an old entry or the
assigned pair. -/
theorem objSet_mem {v : Type} (m : List (String × v)) (k : String) (x : v)
    (e : String × v) (he : e ∈ objSet m k x) : e ∈ m ∨ e = (k, x) := by
  unfold objSet at he
  by_cases hs : (objGet m k).isSome
  · rw [if_pos hs] at he
    obtain ⟨p, hp, hfe⟩ := List.mem_map.mp he
    by_cases hpk : (p.1 == k) = true
    · right
      rw [← hfe]
      simp [hpk]
    · left
      rw [← hfe]
      simpa [hpk] using hp
  · rw [if_neg hs] at he
    rcases List.mem_append.mp he with h | h
    · exact Or.inl h
    · exact Or.inr (by simpa using h)

theorem foldl_objSet_mem {v : Type} (f : String → String) :
    ∀ (l acc : List (String × v)) (e : String × v),
      e ∈ l.foldl (fun nt kv => objSet nt (f kv.1) kv.2) acc →
      e ∈ acc ∨ ∃ kv ∈ l, e = (f kv.1, kv.2) := by
  intro l
  induction l with
  | nil => intro acc e he; exact Or.inl he
  | cons kv l ih =>
    intro acc e he
    rcases ih _ e he with h | ⟨kv', hkv', he'⟩
    · rcases objSet_mem _ _ _ _ h with h' | h'
      · exact Or.inl h'
      · exact Or.inr ⟨kv, by simp, h'⟩
    · exact Or.inr ⟨kv', by simp [hkv'], he'⟩

theorem foldl_objSet_isSome_mono {v : Type} (f : String → String) :
    ∀ (l acc : List (String × v)) (k' : String), (objGet acc k').isSome →
      (objGet (l.foldl (fun nt kv => objSet nt (f kv.1) kv.2) acc) k').isSome := by
  intro l
  induction l with
  | nil => intro acc k' h; exact h
  | cons kv l ih =>
    intro acc k' h
    exact ih _ _ (objGet_objSet_isSome _ _ _ _ h)

theorem foldl_objSet_key_present {v : Type} (f : String → String) :
    ∀ (l acc : List (String × v)) (kv : String × v), kv ∈ l →
      (objGet (l.foldl (fun nt kv => objSet nt (f kv.1) kv.2) acc) (f kv.1)).isSome := by
  intro l
  induction l with
  | nil => intro acc kv h; simp at h
  | cons hd l ih =>
    intro acc kv h
    rcases List.mem_cons.mp h with he | hm
    · subst he
      exact foldl_objSet_isSome_mono f l _ _ (by simp [objGet_objSet_self])
    · exact ih _ kv hm

/-- Claim C8 (amended): when removeTagPrefix (`rm`) is set, the glob
`rm ++ "*"` is appended to the include-tag list handed to the glob matcher;
the prefix transform renames each retained source tag `t` to addTagPrefix
(`ap`) concatenated with `t` minus its first `rm.length` characters (which
equals removing a leading `rm` exactly when `t` starts with `rm`), writing
into a JS object so that colliding renamed keys collapse last-write-wins:
every retained tag's renamed key is present in the transformed map, and
every transformed entry arises from a retained tag by exactly this rename;
renamed keys already existing in the target are then dropped by the final
key-level diff. -/
theorem getFilteredTags_transform (matcher : List String → List String → List String)
    (sourceTags targetTags : List (String × Tag)) (includeTags excludeTags : List String)
    (rm ap : String) (hrm : rm ≠ "") :
    getFilteredTags matcher sourceTags targetTags includeTags excludeTags rm ap =
      keyDiff (transformTagKey (filterObjectKey matcher (keyDiff sourceTags targetTags)
        (includeTags ++ [rm ++ "*"]) excludeTags) rm ap) targetTags ∧
    (∀ kv ∈ filterObjectKey matcher (keyDiff sourceTags targetTags)
        (includeTags ++ [rm ++ "*"]) excludeTags,
      (objGet (transformTagKey (filterObjectKey matcher (keyDiff sourceTags targetTags)
          (includeTags ++ [rm ++ "*"]) excludeTags) rm ap)
        (ap ++ String.mk (kv.1.data.drop rm.length))).isSome) ∧
    (∀ e ∈ transformTagKey (filterObjectKey matcher (keyDiff sourceTags targetTags)
        (includeTags ++ [rm ++ "*"]) excludeTags) rm ap,
      ∃ kv ∈ filterObjectKey matcher (keyDiff sourceTags targetTags)
          (includeTags ++ [rm ++ "*"]) excludeTags,
        e = (ap ++ String.mk (kv.1.data.drop rm.length), kv.2)) := by
  refine ⟨?_, ?_, ?_⟩
  · simp only [getFilteredTags]
    rw [if_pos hrm]
  · intro kv hkv
    unfold transformTagKey
    rw [if_neg (fun hc => hrm hc.1)]
    exact foldl_objSet_key_present (fun s => ap ++ String.mk (s.data.drop rm.length))
      _ [] kv hkv
  · intro e he
    unfold transformTagKey at he
    rw [if_neg (fun hc => hrm hc.1)] at he
    rcases foldl_objSet_mem (fun s => ap ++ String.mk (s.data.drop rm.length))
      _ [] e he with h | h
    · simp at h
    · exact h

/-- Witness for C8 (amended) at one prefixed tag. -/
theorem getFilteredTags_transform_witness :
    (getFilteredTags matcherC8x [("v1", Tag.mk "s1" false)] [] [] [] "v" "w" =
      keyDiff (transformTagKey (filterObjectKey matcherC8x
        (keyDiff [("v1", Tag.mk "s1" false)] []) ([] ++ ["v" ++ "*"]) []) "v" "w") []) ∧
    (∀ kv ∈ filterObjectKey matcherC8x (keyDiff [("v1", Tag.mk "s1" false)] [])
        ([] ++ ["v" ++ "*"]) [],
      (objGet (transformTagKey (filterObjectKey matcherC8x
          (keyDiff [("v1", Tag.mk "s1" false)] []) ([] ++ ["v" ++ "*"]) []) "v" "w")
        ("w" ++ String.mk (kv.1.data.drop ("v" : String).length))).isSome) ∧
    (∀ e ∈ transformTagKey (filterObjectKey matcherC8x
        (keyDiff [("v1", Tag.mk "s1" false)] []) ([] ++ ["v" ++ "*"]) []) "v" "w",
      ∃ kv ∈ filterObjectKey matcherC8x (keyDiff [("v1", Tag.mk "s1" false)] [])
          ([] ++ ["v" ++ "*"]) [],
        e = ("w" ++ String.mk (kv.1.data.drop ("v" : String).length), kv.2)) :=
  getFilteredTags_transform matcherC8x [("v1", Tag.mk "s1" false)] [] [] [] "v" "w"
    (by decide)

/-- Counterexample to C8 as stated: with removeTagPrefix `v`, addTagPrefix
`a` and an extra include glob `x*`, the retained tag `x1` does not start
with `v`, so "t with its leading removeTagPrefix removed" is `x1` and the
claim predicts target name `ax1`; the code chops the first character
unconditionally and produces `a1`. (The matcher fixture returns its keys,
matching micromatch on `["x1"]` against `["x*", "v*"]`.) -/
theorem tagTransform_counterexample :
    getFilteredTags matcherC8x [("x1", Tag.mk "s1" false)] [] ["x*"] [] "v" "a"
      = [("a1", Tag.mk "s1" false)] ∧ ("a1" : String) ≠ "ax1" := by
  refine ⟨?_, by decide⟩
  decide

/-! ## Claim C5: first-failure retry in applyPatch -/

theorem parseLogKey_star (h p : String) (hh : ' ' ∉ h.data) (hp : ' ' ∉ p.data)
    (hpne : p ≠ "") :
    parseLogKey (String.mk ('*' :: ' ' :: '#' :: (h.data ++ ' ' :: p.data)))
      = (true, h, [p]) := by
  have h1 : split (String.mk ('*' :: ' ' :: '#' :: (h.data ++ ' ' :: p.data))) "#"
      = (String.mk ['*', ' '], String.mk (h.data ++ ' ' :: p.data)) :=
    split_first _ _ '#' ['*', ' '] (h.data ++ ' ' :: p.data) rfl rfl (by decide)
  have h2 : split (String.mk (h.data ++ ' ' :: p.data)) " "
      = (String.mk h.data, String.mk p.data) :=
    split_first _ _ ' ' h.data p.data rfl rfl hh
  have hpe : (String.mk p.data == "") = false :=
    beq_eq_false_iff_ne.mpr (fun hc => hpne hc)
  have hj : jsSplit (String.mk p.data) " " = [String.mk p.data] :=
    jsSplit_single_no_occ (String.mk p.data) " " ' ' rfl hp
  simp only [parseLogKey, h1, h2, hpe, hj]
  simp
  exact hj

theorem syncToConflictBranch_conflicted (env : EngineEnv) (st : SyncState) (h : String)
    (hc : st.isConflict = true) :
    syncToConflictBranch env st h = addEv st Ev.checkoutTheirs := by
  unfold syncToConflictBranch
  simp [addEv, hc]

theorem syncToConflictBranch_not_conflicted (env : EngineEnv) (st : SyncState) (h : String)
    (hc : st.isConflict = false) :
    syncToConflictBranch env st h =
      { st with
        trace := st.trace ++ [Ev.checkoutTheirs, Ev.resetHard,
          Ev.createConflict (getConflictBranchName st.headRef) (conflictLocateHash env st h)],
        revCalls := conflictRevCalls env st h,
        conflictBranch := getConflictBranchName st.headRef,
        headRef := getConflictBranchName st.headRef,
        isConflict := true,
        conflictBranches := st.conflictBranches ++ [st.headRef] } := by
  unfold syncToConflictBranch conflictLocateHash conflictRevCalls
  by_cases hcs : conflictSearchHash env h = ""
  · simp [addEv, hc, hcs, revParseHead, List.append_assoc]
  · simp [addEv, hc, hcs, revParseHead, List.append_assoc]

/-- Claim C5 (amended): for a single-parent trunk commit whose patch fails
while `isContains` is false and the engine sits on the default branch: if no
conflict has yet occurred, the engine diverts to the conflict branch and
retries the same patch exactly once, and — because the trunk retry skips
branch selection — that retry runs on the conflict branch; on every
subsequent patch failure it diverts (`checkout --theirs`) without retrying.
(For a branched-line commit the retry re-runs branch selection and lands on
the recreated `sync-<parent>` temp branch instead; see the counterexample.) -/
theorem applyPatch_first_failure_retry (env : EngineEnv) (st : SyncState)
    (h p key : String)
    (hkeyeq : key = String.mk ('*' :: ' ' :: '#' :: (h.data ++ ' ' :: p.data)))
    (hh : ' ' ∉ h.data) (hp : ' ' ∉ p.data) (hpne : p ≠ "")
    (hnc : st.isContains = false)
    (hfail : env.applyOk st.applyCalls = false)
    (hcur : st.currentBranch = st.defaultBranch) :
    (st.isConflict = false →
      ∃ st', applyPatch env st key = .ok st' ∧
        (st'.trace.drop st.trace.length).filter Ev.isApply =
          [Ev.applyAttempt h st.headRef,
            Ev.applyAttempt h (getConflictBranchName st.headRef)] ∧
        ((st'.trace.drop st.trace.length).filter Ev.isCreate).length = 1 ∧
        st'.conflictBranch = getConflictBranchName st.headRef ∧
        st'.isConflict = true) ∧
    (st.isConflict = true →
      ∃ st', applyPatch env st key = .ok st' ∧
        (st'.trace.drop st.trace.length).filter Ev.isApply =
          [Ev.applyAttempt h st.headRef] ∧
        Ev.checkoutTheirs ∈ st'.trace.drop st.trace.length ∧
        ((st'.trace.drop st.trace.length).filter Ev.isCreate).length = 0) := by
  subst hkeyeq
  have hkey := parseLogKey_star h p hh hp hpne
  have hstep : ∀ (s : SyncState), s.currentBranch = s.defaultBranch → ∀ fuel : Nat,
      applyPatchFuel env (fuel + 1) s
          (String.mk ('*' :: ' ' :: '#' :: (h.data ++ ' ' :: p.data))) =
        (if env.applyOk s.applyCalls then
          Except.ok (commitAndRecord env
            { addEv s (Ev.applyAttempt h s.headRef) with applyCalls := s.applyCalls + 1 } h)
        else if ({ addEv s (Ev.applyAttempt h s.headRef) with
            applyCalls := s.applyCalls + 1 } : SyncState).isContains then
          Except.ok (commitAndRecord env (overwrite
            (if ({ addEv s (Ev.applyAttempt h s.headRef) with
                applyCalls := s.applyCalls + 1 } : SyncState).isHistorical then
              syncToConflictBranch env
                { addEv s (Ev.applyAttempt h s.headRef) with applyCalls := s.applyCalls + 1 } h
            else
              { addEv s (Ev.applyAttempt h s.headRef) with applyCalls := s.applyCalls + 1 }) h) h)
        else if !({ addEv s (Ev.applyAttempt h s.headRef) with
            applyCalls := s.applyCalls + 1 } : SyncState).isConflict then
          applyPatchFuel env fuel
            (syncToConflictBranch env
              { addEv s (Ev.applyAttempt h s.headRef) with applyCalls := s.applyCalls + 1 } h)
            (String.mk ('*' :: ' ' :: '#' :: (h.data ++ ' ' :: p.data)))
        else
          Except.ok (commitAndRecord env
            (syncToConflictBranch env
              { addEv s (Ev.applyAttempt h s.headRef) with applyCalls := s.applyCalls + 1 } h)
            h)) := by
    intro s hs fuel
    have hbs : branchSelect env s true [p] = .ok s := by
      unfold branchSelect
      simp [hs]
    simp only [applyPatchFuel, hkey, hbs]
    simp
  constructor
  · intro hconf
    have h3 := syncToConflictBranch_not_conflicted env
      { addEv st (Ev.applyAttempt h st.headRef) with applyCalls := st.applyCalls + 1 } h
      (by simp [addEv, hconf])
    have hred1 : applyPatch env st
        (String.mk ('*' :: ' ' :: '#' :: (h.data ++ ' ' :: p.data))) =
        applyPatchFuel env 1
          (syncToConflictBranch env
            { addEv st (Ev.applyAttempt h st.headRef) with applyCalls := st.applyCalls + 1 } h)
          (String.mk ('*' :: ' ' :: '#' :: (h.data ++ ' ' :: p.data))) := by
      show applyPatchFuel env 2 st _ = _
      have hs1 := hstep st hcur 1
      norm_num at hs1
      rw [hs1, if_neg (by simp [hfail]), if_neg (by simp [addEv, hnc]),
        if_pos (by simp [addEv, hconf])]
    set st3 := syncToConflictBranch env
      { addEv st (Ev.applyAttempt h st.headRef) with applyCalls := st.applyCalls + 1 } h
      with hst3
    have f1 : st3.currentBranch = st.defaultBranch := by rw [h3]; simp [addEv]; exact hcur
    have f2 : st3.defaultBranch = st.defaultBranch := by rw [h3]; simp [addEv]
    have f3 : st3.isContains = false := by rw [h3]; simp [addEv]; exact hnc
    have f4 : st3.isConflict = true := by rw [h3]
    have f5 : st3.headRef = getConflictBranchName st.headRef := by rw [h3]; simp [addEv]
    have f6 : st3.conflictBranch = getConflictBranchName st.headRef := by
      rw [h3]; simp [addEv]
    have f8 : ∃ T, st3.trace = st.trace ++ [Ev.applyAttempt h st.headRef,
        Ev.checkoutTheirs, Ev.resetHard,
        Ev.createConflict (getConflictBranchName st.headRef) T] := by
      refine ⟨conflictLocateHash env
        { addEv st (Ev.applyAttempt h st.headRef) with applyCalls := st.applyCalls + 1 } h, ?_⟩
      rw [h3]
      simp [addEv, List.append_assoc]
    obtain ⟨T, f8⟩ := f8
    have hs0 := hstep st3 (f1.trans f2.symm) 0
    norm_num at hs0
    rw [hs0] at hred1
    by_cases hok2 : env.applyOk st3.applyCalls = true
    · rw [if_pos hok2] at hred1
      refine ⟨_, hred1, ?_, ?_, ?_, ?_⟩ <;>
        simp [commitAndRecord, commitOp, revParseHead, setTargetHash, addEv,
          f3, f4, f5, f6, f8, List.append_assoc, List.drop_left, Ev.isApply, Ev.isCreate]
    · rw [if_neg hok2, if_neg (by simp [addEv, f3]),
        if_neg (by simp [addEv, f4])] at hred1
      rw [syncToConflictBranch_conflicted env _ h (by simp [addEv, f4])] at hred1
      refine ⟨_, hred1, ?_, ?_, ?_, ?_⟩ <;>
        simp [commitAndRecord, commitOp, revParseHead, setTargetHash, addEv,
          f3, f4, f5, f6, f8, List.append_assoc, List.drop_left, Ev.isApply, Ev.isCreate]
  · intro hconf
    have hred1 : applyPatch env st
        (String.mk ('*' :: ' ' :: '#' :: (h.data ++ ' ' :: p.data))) =
        Except.ok (commitAndRecord env
          (syncToConflictBranch env
            { addEv st (Ev.applyAttempt h st.headRef) with applyCalls := st.applyCalls + 1 } h)
          h) := by
      show applyPatchFuel env 2 st _ = _
      have hs1 := hstep st hcur 1
      norm_num at hs1
      rw [hs1, if_neg (by simp [hfail]), if_neg (by simp [addEv, hnc]),
        if_neg (by simp [addEv, hconf])]
    rw [syncToConflictBranch_conflicted env _ h (by simp [addEv, hconf])] at hred1
    refine ⟨_, hred1, ?_, ?_, ?_⟩ <;>
      simp [commitAndRecord, commitOp, revParseHead, setTargetHash, addEv,
        List.append_assoc, List.drop_left, Ev.isApply, Ev.isCreate]

/-- Witness for C5 (amended): a trunk commit on the default branch whose
patch always fails. -/
theorem applyPatch_first_failure_retry_witness :
    (stC5x.isConflict = false →
      ∃ st', applyPatch envC5w stC5x "* #h1 p1" = .ok st' ∧
        (st'.trace.drop stC5x.trace.length).filter Ev.isApply =
          [Ev.applyAttempt "h1" stC5x.headRef,
            Ev.applyAttempt "h1" (getConflictBranchName stC5x.headRef)] ∧
        ((st'.trace.drop stC5x.trace.length).filter Ev.isCreate).length = 1 ∧
        st'.conflictBranch = getConflictBranchName stC5x.headRef ∧
        st'.isConflict = true) ∧
    (stC5x.isConflict = true →
      ∃ st', applyPatch envC5w stC5x "* #h1 p1" = .ok st' ∧
        (st'.trace.drop stC5x.trace.length).filter Ev.isApply =
          [Ev.applyAttempt "h1" stC5x.headRef] ∧
        Ev.checkoutTheirs ∈ st'.trace.drop stC5x.trace.length ∧
        ((st'.trace.drop stC5x.trace.length).filter Ev.isCreate).length = 0) :=
  applyPatch_first_failure_retry envC5w stC5x "h1" "p1" "* #h1 p1"
    (by decide) (by decide) (by decide) (by decide) (by decide) (by decide) (by decide)

/-- Counterexample to C5 as stated: a branched-line (non-trunk) single
parent commit `| * #a b` whose first patch fails. The run diverts and
creates the conflict branch `sync-b-gitsync-conflict`, then the retry
re-runs branch selection, which checks out the recreated temp branch
`sync-b` again — both apply attempts run with HEAD on `sync-b`, so the
retried patch is not applied on the conflict branch as the claim states. -/
theorem applyPatch_branched_retry_counterexample :
    (applyPatch envC5x stC5x "| * #a b").map
        (fun st => (st.trace.filter Ev.isApply, st.conflictBranch)) =
      .ok ([Ev.applyAttempt "a" "sync-b", Ev.applyAttempt "a" "sync-b"],
        "sync-b-gitsync-conflict") ∧
    ("sync-b" : String) ≠ "sync-b-gitsync-conflict" := by
  refine ⟨?_, by decide⟩
  decide

end GitSync
